import Mathlib

/-!
Verification of `txmn/workers.py` (`_sim`) against its specification.

The file embeds the pure content of `_sim` in Lean:

* the parameter transform (lines 74-77, 99, 103) over `ℝ`,
* the migration-matrix builder (lines 79-97) over `ℚ`-matrices,
* the summary-statistic reducer (lines 107-161) over an explicit
  floating-value type `FVal` that distinguishes NaN from numbers.

`treesample` is a `MetaSample` from `txmn/classes.py`, which only
exposes per-replicate statistic values to `_sim`; those values are
modelled as oracle inputs (`MetaStats`), so every theorem below holds
for all possible statistic values the sample object could return.
-/

deriving instance DecidableEq for Except

namespace Txmn

/-- A floating-point statistic value as `_sim` sees it: either NaN or a
numeric value (modelled as a rational; infinities do not arise in the
claims considered here). -/
inductive FVal where
  | nan : FVal
  | num (q : ℚ) : FVal
deriving DecidableEq

def FVal.isNan : FVal → Bool
  | .nan => true
  | .num _ => false

def FVal.toRat : FVal → ℚ
  | .nan => 0
  | .num q => q

/-- Mean as `np.mean` computes it over the first `R` values of `f`: NaN if any input is NaN
(or if the array is empty), otherwise the arithmetic mean. -/
def fmean (f : ℕ → FVal) (R : ℕ) : FVal :=
  if R = 0 then .nan
  else if ((List.range R).any fun i => (f i).isNan) then .nan
  else .num ((((List.range R).map fun i => (f i).toRat).sum) / R)

/-- The statistic values produced by the `MetaSample` object
(`txmn/classes.py`, not part of the verified source): `piH`, `piNei`,
`piTajima`, `segsites`, `thetaW` give one value per replicate
(indices `0..num_replicates-1`); `fstMean` and `fstSd` are the entries
of the dict returned by `treesample.fst(...)`, one value per output row
(a single averaged value when `average_reps` is set). All are left
completely unconstrained: the theorems quantify over them. -/
structure MetaStats where
  piH : ℕ → FVal
  piNei : ℕ → FVal
  piTajima : ℕ → FVal
  segsites : ℕ → FVal
  thetaW : ℕ → FVal
  fstMean : ℕ → FVal
  fstSd : ℕ → FVal

/-- The `if stat == ...` chain of `_sim` (workers.py lines 121-157):
the column of values written for a requested statistic name, or `none`
when the name matches no branch (in which case the loop writes
nothing). Branch order follows the source. -/
def statColumn (ms : MetaStats) (average_reps : Bool) (R : ℕ) (stat : String) :
    Option (ℕ → FVal) :=
  if stat = "pi_h" then
    some (if average_reps then fun _ => fmean ms.piH R else ms.piH)
  else if stat = "pi_nei" then
    some (if average_reps then fun _ => fmean ms.piNei R else ms.piNei)
  else if stat = "pi_tajima" then
    some (if average_reps then fun _ => fmean ms.piTajima R else ms.piTajima)
  else if stat = "num_sites" then
    some (if average_reps then fun _ => fmean ms.segsites R else ms.segsites)
  else if stat = "theta_w" then
    some (if average_reps then fun _ => fmean ms.thetaW R else ms.thetaW)
  else if stat = "fst_mean" then some ms.fstMean
  else if stat = "fst_sd" then some ms.fstSd
  else none

/-- The statistic names recognised by the branch chain of
`statColumn` — the fixed enumerated set of the specification. -/
def validStatNames : List String :=
  ["pi_h", "pi_nei", "pi_tajima", "num_sites", "theta_w", "fst_mean", "fst_sd"]

/-- Column assignment `out[:, c] = col` on an array viewed as a function of
(row, column). -/
def writeCol (out : ℕ → ℕ → FVal) (c : ℕ) (col : ℕ → FVal) : ℕ → ℕ → FVal :=
  fun r c' => if c' = c then col r else out r c'

/-- The loop `for statidx, stat in enumerate(stats): ...` (lines 121-157),
starting at enumeration index `i`. -/
def statLoop (ms : MetaStats) (average_reps : Bool) (R : ℕ) :
    ℕ → List String → (ℕ → ℕ → FVal) → (ℕ → ℕ → FVal)
  | _, [], out => out
  | i, stat :: rest, out =>
      statLoop ms average_reps R (i + 1) rest
        (match statColumn ms average_reps R stat with
         | some col => writeCol out i col
         | none => out)

/-- The test `len(set(("fst_mean", "fst_sd")).intersection(set(stats))) > 0`
(line 112). -/
def fstRequested (stats : List String) : Bool :=
  stats.any fun s => s == "fst_mean" || s == "fst_sd"

/-- How a `_sim` call can fail before producing its output array. -/
inductive SimError where
  | unboundLocal : SimError
  | breakpointHit : SimError
  | notImplemented : SimError
deriving DecidableEq

/-- The statistics phase of `_sim` (workers.py lines 107-161).

* `out` is allocated with `num_replicates` rows (or one row when
  `average_reps`) and `len(stats) + 3` columns of zeros (lines 107-111).
* `fst_summ` is bound only when an Fst statistic was requested
  (line 112); line 119 then reads it unconditionally, so a stats tuple
  without Fst statistics raises `UnboundLocalError`
  (`SimError.unboundLocal`).
* If any value of `fst_summ` is NaN, line 120 stops in the debugger
  (`SimError.breakpointHit` — the draw produces no output row).
* Otherwise the statistic loop fills the columns, the three parameter
  columns are written (lines 158-160), and the rows are returned
  (line 161; with `average_reps` the code returns the single row
  `out[0]`, here the one-element row list).

`simOut` is the returned array: the zero-initialised `out` (lines
107-111), filled by the statistic loop (lines 121-157) and the
parameter-column writes `out[:, -3] = eta`, `out[:, -2] = tau`,
`out[:, -1] = rho` (lines 158-160), read back row by row. -/
def simOut (eta tau rho : ℚ) (num_replicates : ℕ) (stats : List String)
    (average_reps : Bool) (ms : MetaStats) : List (List FVal) :=
  let rows := if average_reps then 1 else num_replicates
  let cols := stats.length + 3
  let out0 : ℕ → ℕ → FVal := fun _ _ => .num 0
  let out1 := statLoop ms average_reps num_replicates 0 stats out0
  let out2 := writeCol out1 stats.length fun _ => .num eta
  let out3 := writeCol out2 (stats.length + 1) fun _ => .num tau
  let out4 := writeCol out3 (stats.length + 2) fun _ => .num rho
  (List.range rows).map fun r => (List.range cols).map fun c => out4 r c

def simStats (eta tau rho : ℚ) (num_replicates : ℕ) (stats : List String)
    (average_reps : Bool) (ms : MetaStats) :
    Except SimError (List (List FVal)) :=
  if fstRequested stats = false then .error .unboundLocal
  else if ((List.range (if average_reps then 1 else num_replicates)).any
      fun r => (ms.fstMean r).isNan || (ms.fstSd r).isNan)
    then .error .breakpointHit
  else .ok (simOut eta tau rho num_replicates stats average_reps ms)

/-- A concrete oracle whose statistics are all zero. -/
def constStats : MetaStats :=
  ⟨fun _ => .num 0, fun _ => .num 0, fun _ => .num 0, fun _ => .num 0,
   fun _ => .num 0, fun _ => .num 0, fun _ => .num 0⟩

/-- A concrete oracle whose `pi_h` statistic is NaN for every
replicate, all other statistics zero. -/
def nanPiStats : MetaStats :=
  ⟨fun _ => .nan, fun _ => .num 0, fun _ => .num 0, fun _ => .num 0,
   fun _ => .num 0, fun _ => .num 0, fun _ => .num 0⟩

/-! ### Parameter transform (workers.py lines 74-77, 99, 103)

The arithmetic is over `ℝ` because `10 ** eta` is a real power.
The Python code performs these operations on floats with no check on
the sign of `A`; the embedding mirrors that by being a total function
(in particular there is no domain-error branch to model).
-/

/-- Line 75: `A = tau + rho * (1 - rho * tau) * (1 - tau) ** 2`. -/
noncomputable def A (tau rho : ℝ) : ℝ :=
  tau + rho * (1 - rho * tau) * (1 - tau) ^ 2

/-- Line 76: `symbiont_Nm = np.true_divide(host_Nm * rho, A)`. -/
noncomputable def symbiont_Nm (host_Nm tau rho : ℝ) : ℝ :=
  host_Nm * rho / A tau rho

/-- Line 77: `symbiont_theta = np.true_divide(10 ** eta * host_theta * rho, A)`. -/
noncomputable def symbiont_theta (eta host_theta tau rho : ℝ) : ℝ :=
  (10 : ℝ) ^ eta * host_theta * rho / A tau rho

/-- The `Ne` argument of the `ms.simulate` call: `Ne=rho / (2 * A)`
(line 99). -/
noncomputable def effectiveSize (tau rho : ℝ) : ℝ :=
  rho / (2 * A tau rho)

/-- The `mutation_rate` argument of the `ms.simulate` call:
`mutation_rate=symbiont_theta / 2` (line 103). -/
noncomputable def mutationRate (eta host_theta tau rho : ℝ) : ℝ :=
  symbiont_theta eta host_theta tau rho / 2

/-! ### Migration matrix builder (workers.py lines 79-97) -/

/-- Default mode (lines 80-84): `np.full` with
`symbiont_Nm / (num_populations - 1)` followed by
`np.fill_diagonal(migration, 0)`. `Nm` stands for the already-computed
`symbiont_Nm` value. -/
def defaultMigration (n : ℕ) (Nm : ℚ) : Matrix (Fin n) (Fin n) ℚ :=
  fun i j => if i = j then 0 else Nm / ((n : ℚ) - 1)

/-- Rescale mode (lines 91-96):
`(np.ones((1, n)) @ linalg.inv(migration) @ np.full((n, 1), symbiont_Nm)) / n`,
with `linalg.inv` modelled by Mathlib's matrix inverse. -/
noncomputable def migrationConstant (n : ℕ) (Nm : ℚ)
    (migration : Matrix (Fin n) (Fin n) ℚ) : ℚ :=
  Matrix.dotProduct (fun _ => (1 : ℚ)) (migration⁻¹.mulVec fun _ => Nm) / n

/-- Line 97: `migration = migration * migration_constant`. -/
noncomputable def rescaledMigration (n : ℕ) (Nm : ℚ)
    (migration : Matrix (Fin n) (Fin n) ℚ) : Matrix (Fin n) (Fin n) ℚ :=
  migrationConstant n Nm migration • migration

/-- The full migration-phase control flow of `_sim` (lines 79-97):
default mode when no matrix is supplied; otherwise the symmetry check
`np.all(migration == migration.T)` (elementwise) guards the rescale,
and an asymmetric matrix raises `NotImplementedError`. -/
noncomputable def buildMigration (n : ℕ) (Nm : ℚ)
    (migration : Option (Matrix (Fin n) (Fin n) ℚ)) :
    Except SimError (Matrix (Fin n) (Fin n) ℚ) :=
  match migration with
  | none => .ok (defaultMigration n Nm)
  | some M =>
      if ∀ i j, M i j = M.transpose i j then .ok (rescaledMigration n Nm M)
      else .error .notImplemented

/-- An asymmetric 2x2 relative migration matrix. -/
def asymM : Matrix (Fin 2) (Fin 2) ℚ := !![0, 1; 2, 0]

/-- A symmetric nonsingular 3x3 relative migration matrix whose row sums
are not all equal (rows sum to 3, 2, 3). -/
def M3 : Matrix (Fin 3) (Fin 3) ℚ := !![0, 1, 2; 1, 0, 1; 2, 1, 0]

/-- The inverse of `M3` (det `M3` = 4). -/
def B3 : Matrix (Fin 3) (Fin 3) ℚ :=
  (1 / 4 : ℚ) • !![-1, 2, 1; 2, -4, 2; 1, 2, -1]

/-- A symmetric nonsingular 2x2 matrix with constant row sums 2. -/
def M2 : Matrix (Fin 2) (Fin 2) ℚ := !![0, 2; 2, 0]

/-! ### Theorems -/

/-- C1: the parameter transform computes
`A = tau + rho*(1-rho*tau)*(1-tau)^2` and derives
`effective_size = rho/(2*A)`, `symbiont_Nm = host_Nm*rho/A` and
`symbiont_mutation_rate = 10^eta * host_theta * rho / A / 2`, exactly as
the closed-form expressions state. -/
theorem parameterTransform_closed_forms (eta tau rho host_theta host_Nm : ℝ) :
    A tau rho = tau + rho * (1 - rho * tau) * (1 - tau) ^ 2 ∧
    effectiveSize tau rho
      = rho / (2 * (tau + rho * (1 - rho * tau) * (1 - tau) ^ 2)) ∧
    symbiont_Nm host_Nm tau rho
      = host_Nm * rho / (tau + rho * (1 - rho * tau) * (1 - tau) ^ 2) ∧
    mutationRate eta host_theta tau rho
      = (10 : ℝ) ^ eta * host_theta * rho
          / (tau + rho * (1 - rho * tau) * (1 - tau) ^ 2) / 2 :=
  ⟨rfl, rfl, rfl, rfl⟩

/-- C2: the code performs no check on the sign of `A`. At
`tau = 0, rho = 0` the scalar `A` is exactly `0` (so the code divides by
zero: `np.true_divide` yields NaN for `symbiont_Nm` and the Python float
division `rho / (2 * A)` raises `ZeroDivisionError`); at
`eta = 0, tau = -3, rho = 1/10` the scalar `A` is negative and the
transform hands `ms.simulate` a negative mutation rate instead of
raising a domain error. -/
theorem parameterTransform_negative_rate :
    A 0 0 = 0 ∧
    A (-3) (1 / 10) < 0 ∧
    mutationRate 0 1 (-3) (1 / 10) < 0 := by
  have h10 : (10 : ℝ) ^ (0 : ℝ) = 1 := Real.rpow_zero 10
  refine ⟨by norm_num [A], by norm_num [A], ?_⟩
  norm_num [mutationRate, symbiont_theta, A, h10]

/-- C7: in rescale mode an asymmetric user-supplied migration matrix is
rejected (`NotImplementedError`, line 86) before any rescaling is
attempted. -/
theorem asymmetric_migration_rejected (n : ℕ) (Nm : ℚ)
    (M : Matrix (Fin n) (Fin n) ℚ)
    (h : ¬ ∀ i j, M i j = M.transpose i j) :
    buildMigration n Nm (some M) = .error .notImplemented := by
  simp only [buildMigration]
  rw [if_neg h]

/-- C7 witness: a concrete asymmetric matrix is rejected. -/
theorem asymmetric_migration_rejected_witness :
    buildMigration 2 5 (some asymM) = .error .notImplemented :=
  asymmetric_migration_rejected 2 5 asymM (by decide)

/-- C8: in default mode the built matrix has every off-diagonal entry
equal to `symbiont_Nm / (num_populations - 1)`, zero diagonal, and is
symmetric. -/
theorem defaultMigration_entries (n : ℕ) (Nm : ℚ) (_hn : 2 ≤ n) :
    (∀ i j : Fin n, i ≠ j → defaultMigration n Nm i j = Nm / ((n : ℚ) - 1)) ∧
    (∀ i : Fin n, defaultMigration n Nm i i = 0) ∧
    (defaultMigration n Nm).IsSymm := by
  refine ⟨fun i j hij => if_neg hij, fun i => if_pos rfl, ?_⟩
  ext i j
  by_cases h : i = j
  · subst h; rfl
  · rw [Matrix.transpose_apply, defaultMigration]
    simp only [defaultMigration, if_neg h, if_neg (Ne.symm h)]

/-- C8 witness: the default matrix for two populations and
`symbiont_Nm = 3`. -/
theorem defaultMigration_entries_witness :
    defaultMigration 2 3 0 1 = 3 / (((2 : ℕ) : ℚ) - 1) ∧
    defaultMigration 2 3 0 0 = 0 :=
  ⟨(defaultMigration_entries 2 3 (le_refl 2)).1 0 1 (by decide),
   (defaultMigration_entries 2 3 (le_refl 2)).2.1 0⟩

/-! ### Reducer lemmas -/

/-- The statistic loop never writes a column left of its starting
enumeration index. -/
theorem statLoop_lt (ms : MetaStats) (avg : Bool) (R : ℕ) (stats : List String) :
    ∀ (i0 : ℕ) (out : ℕ → ℕ → FVal) (r c : ℕ), c < i0 →
      statLoop ms avg R i0 stats out r c = out r c := by
  induction stats with
  | nil => intro i0 out r c _; rfl
  | cons stat rest ih =>
      intro i0 out r c h
      simp only [statLoop]
      rw [ih (i0 + 1) _ r c (Nat.lt_succ_of_lt h)]
      cases statColumn ms avg R stat with
      | none => rfl
      | some col => exact if_neg (Nat.ne_of_lt h)

/-- Column `i0 + k` of the statistic loop holds the column selected for
the `k`-th requested statistic, or the incoming value when that name
matches no branch. -/
theorem statLoop_get (ms : MetaStats) (avg : Bool) (R : ℕ) (stats : List String) :
    ∀ (k : ℕ) (hk : k < stats.length) (i0 : ℕ) (out : ℕ → ℕ → FVal) (r : ℕ),
      statLoop ms avg R i0 stats out r (i0 + k) =
        match statColumn ms avg R (stats.get ⟨k, hk⟩) with
        | some col => col r
        | none => out r (i0 + k) := by
  induction stats with
  | nil => intro k hk; exact absurd hk (by simp)
  | cons stat rest ih =>
      intro k hk i0 out r
      cases k with
      | zero =>
          simp only [statLoop, List.get]
          rw [statLoop_lt ms avg R rest (i0 + 1) _ r (i0 + 0) (by omega)]
          cases statColumn ms avg R stat with
          | none => rfl
          | some col => exact if_pos (by omega)
      | succ k' =>
          have hk' : k' < rest.length := by simpa using hk
          have harith : i0 + (k' + 1) = (i0 + 1) + k' := by omega
          simp only [statLoop, List.get]
          rw [harith, ih k' hk' (i0 + 1) _ r]
          cases statColumn ms avg R (rest.get ⟨k', hk'⟩) with
          | some col => rfl
          | none =>
              cases statColumn ms avg R stat with
              | none => rfl
              | some col => exact if_neg (by omega)

/-- A statistic name outside the enumerated set matches no branch of
the `if stat == ...` chain. -/
theorem statColumn_eq_none (ms : MetaStats) (avg : Bool) (R : ℕ) (stat : String)
    (h : stat ∉ validStatNames) : statColumn ms avg R stat = none := by
  simp only [validStatNames, List.mem_cons, List.not_mem_nil, or_false,
    not_or] at h
  obtain ⟨h1, h2, h3, h4, h5, h6, h7⟩ := h
  simp [statColumn, h1, h2, h3, h4, h5, h6, h7]

/-- Specialisation of `statLoop_get` to starting index `0`. -/
theorem statLoop_zero_get (ms : MetaStats) (avg : Bool) (R : ℕ)
    (stats : List String) (c : ℕ) (hc : c < stats.length)
    (out : ℕ → ℕ → FVal) (r : ℕ) :
    statLoop ms avg R 0 stats out r c =
      match statColumn ms avg R (stats.get ⟨c, hc⟩) with
      | some col => col r
      | none => out r c := by
  have h := statLoop_get ms avg R stats c hc 0 out r
  rw [Nat.zero_add] at h
  exact h

/-- A successful `_sim` call returns exactly the filled `out` array. -/
theorem simStats_ok (eta tau rho : ℚ) (R : ℕ) (stats : List String)
    (avg : Bool) (ms : MetaStats) (l : List (List FVal))
    (h : simStats eta tau rho R stats avg ms = .ok l) :
    l = simOut eta tau rho R stats avg ms := by
  simp only [simStats] at h
  by_cases h1 : fstRequested stats = false
  · rw [if_pos h1] at h
    exact Except.noConfusion h
  rw [if_neg h1] at h
  by_cases h2 : ((List.range (if avg = true then 1 else R)).any
      fun r => (ms.fstMean r).isNan || (ms.fstSd r).isNan) = true
  · rw [if_pos h2] at h
    exact Except.noConfusion h
  · rw [if_neg h2] at h
    exact (Except.ok.inj h).symm

/-- Dropping the statistic columns of a row of `out` leaves the three
trailing columns. -/
theorem range_map_drop {α : Type} (f : ℕ → α) (len : ℕ) :
    ((List.range (len + 3)).map f).drop len = [f len, f (len + 1), f (len + 2)] := by
  have h : List.range (len + 3) = List.range len ++ [len, len + 1, len + 2] := by
    rw [show len + 3 = ((len + 1) + 1) + 1 by omega, List.range_succ,
      List.range_succ, List.range_succ]
    simp
  have h2 := List.drop_left ((List.range len).map f)
    ([len, len + 1, len + 2].map f)
  simp only [List.length_map, List.length_range] at h2
  rw [h, List.map_append, h2, List.map_cons, List.map_cons, List.map_cons,
    List.map_nil]

/-- The final `out` array agrees with the statistic loop on the
statistic columns. -/
theorem simOut_entry (eta tau rho : ℚ) (R : ℕ) (stats : List String)
    (avg : Bool) (ms : MetaStats) (r c : ℕ) (hc : c < stats.length) :
    (match statColumn ms avg R (stats.get ⟨c, hc⟩) with
      | some col => col r
      | none => FVal.num 0) =
    writeCol (writeCol (writeCol
        (statLoop ms avg R 0 stats fun _ _ => FVal.num 0)
        stats.length (fun _ => FVal.num eta))
        (stats.length + 1) (fun _ => FVal.num tau))
        (stats.length + 2) (fun _ => FVal.num rho) r c := by
  simp only [writeCol]
  rw [if_neg (show ¬ c = stats.length + 2 by omega),
    if_neg (show ¬ c = stats.length + 1 by omega),
    if_neg (show ¬ c = stats.length by omega)]
  rw [statLoop_zero_get ms avg R stats c hc _ r]

/-! ### Reducer theorems -/

/-- C10: a `_sim` call whose `stats` tuple contains neither `fst_mean`
nor `fst_sd` reads the never-assigned variable `fst_summ` at line 119
and dies with `UnboundLocalError`, whatever the sample statistics are. -/
theorem missing_fst_unbound (eta tau rho : ℚ) (R : ℕ) (stats : List String)
    (avg : Bool) (ms : MetaStats)
    (h1 : "fst_mean" ∉ stats) (h2 : "fst_sd" ∉ stats) :
    simStats eta tau rho R stats avg ms = .error .unboundLocal := by
  have hf : fstRequested stats = false := by
    rw [fstRequested, List.any_eq_false]
    intro s hs
    simp only [Bool.or_eq_true, beq_iff_eq, not_or]
    exact ⟨fun hmem => h1 (hmem ▸ hs), fun hmem => h2 (hmem ▸ hs)⟩
  simp [simStats, hf]

/-- C10 witness: `stats = ("pi_h",)` fails with the unbound-name
error. -/
theorem missing_fst_unbound_witness :
    simStats 1 2 3 1 ["pi_h"] true constStats = .error .unboundLocal :=
  missing_fst_unbound 1 2 3 1 ["pi_h"] true constStats (by decide) (by decide)

/-- C6: a successful `_sim` call returns one row when `average_reps` is
set and one row per replicate otherwise. -/
theorem reducer_row_count (eta tau rho : ℚ) (R : ℕ) (stats : List String)
    (avg : Bool) (ms : MetaStats) (l : List (List FVal))
    (h : simStats eta tau rho R stats avg ms = .ok l) :
    l.length = if avg = true then 1 else R := by
  rw [simStats_ok eta tau rho R stats avg ms l h]
  simp [simOut]

/-- C6 witness: two replicates without averaging give two rows (the
theorem applied to a concrete successful call). -/
theorem reducer_row_count_witness :
    ([[FVal.num 0, FVal.num 1, FVal.num 2, FVal.num 3],
      [FVal.num 0, FVal.num 1, FVal.num 2, FVal.num 3]] : List (List FVal)).length
      = 2 :=
  reducer_row_count 1 2 3 2 ["fst_mean"] false constStats _ (by decide)

/-- C9: every row of a successful `_sim` result has exactly
`len(stats) + 3` entries and ends with `eta`, `tau`, `rho` in that
order. -/
theorem trailing_parameter_columns (eta tau rho : ℚ) (R : ℕ)
    (stats : List String) (avg : Bool) (ms : MetaStats) (l : List (List FVal))
    (h : simStats eta tau rho R stats avg ms = .ok l)
    (row : List FVal) (hrow : row ∈ l) :
    row.length = stats.length + 3 ∧
    row.drop stats.length = [FVal.num eta, FVal.num tau, FVal.num rho] := by
  rw [simStats_ok eta tau rho R stats avg ms l h] at hrow
  simp only [simOut, List.mem_map] at hrow
  obtain ⟨r, _, rfl⟩ := hrow
  refine ⟨by simp, ?_⟩
  rw [range_map_drop]
  simp only [writeCol]
  rw [if_neg (show ¬ stats.length = stats.length + 2 by omega),
    if_neg (show ¬ stats.length = stats.length + 1 by omega),
    if_neg (show ¬ stats.length + 1 = stats.length + 2 by omega)]
  simp

/-- C9 witness: the theorem applied to a concrete successful call with
`stats = ("fst_mean",)` and `(eta, tau, rho) = (1, 2, 3)`. -/
theorem trailing_parameter_columns_witness :
    ([FVal.num 0, FVal.num 1, FVal.num 2, FVal.num 3] : List FVal).drop 1
      = [FVal.num 1, FVal.num 2, FVal.num 3] :=
  (trailing_parameter_columns 1 2 3 1 ["fst_mean"] true constStats
    [[FVal.num 0, FVal.num 1, FVal.num 2, FVal.num 3]] (by decide)
    [FVal.num 0, FVal.num 1, FVal.num 2, FVal.num 3] (by decide)).2

/-- C5 counterexample: requesting the unknown statistic name `bogus`
does not fail with a validation error — the call succeeds and the
`bogus` column silently keeps its zero initialisation. -/
theorem unknown_stat_no_validation_error :
    simStats 1 2 3 1 ["fst_mean", "bogus"] true constStats =
      .ok [[FVal.num 0, FVal.num 0, FVal.num 1, FVal.num 2, FVal.num 3]] := by
  decide

/-- C5 amended: a successful `_sim` call returns rows with exactly one
column per requested name plus the three trailing parameter columns (no
extras); a requested name outside the enumerated set is silently
ignored, its column keeping the zero initialisation instead of raising
a validation error. -/
theorem reducer_columns_exact (eta tau rho : ℚ) (R : ℕ) (stats : List String)
    (avg : Bool) (ms : MetaStats) (l : List (List FVal))
    (h : simStats eta tau rho R stats avg ms = .ok l) :
    (∀ row ∈ l, row.length = stats.length + 3) ∧
    (∀ (i : ℕ) (hi : i < stats.length), stats.get ⟨i, hi⟩ ∉ validStatNames →
      ∀ row ∈ l, row[i]? = some (FVal.num 0)) := by
  rw [simStats_ok eta tau rho R stats avg ms l h]
  constructor
  · intro row hrow
    simp only [simOut, List.mem_map] at hrow
    obtain ⟨r, _, rfl⟩ := hrow
    simp
  · intro i hi hstat row hrow
    simp only [simOut, List.mem_map] at hrow
    obtain ⟨r, _, rfl⟩ := hrow
    rw [List.getElem?_map, List.getElem?_range (by omega : i < stats.length + 3)]
    simp only [Option.map_some']
    rw [← simOut_entry eta tau rho R stats avg ms r i hi,
      statColumn_eq_none ms avg R (stats.get ⟨i, hi⟩) hstat]

/-- C5 amended witness: in the `bogus` run above, the `bogus` column of
the returned row is the zero initialisation. -/
theorem reducer_columns_exact_witness :
    ([FVal.num 0, FVal.num 0, FVal.num 1, FVal.num 2, FVal.num 3] :
      List FVal)[1]? = some (FVal.num 0) :=
  (reducer_columns_exact 1 2 3 1 ["fst_mean", "bogus"] true constStats
    [[FVal.num 0, FVal.num 0, FVal.num 1, FVal.num 2, FVal.num 3]]
    (by decide)).2 1 (by decide) (by decide)
    [FVal.num 0, FVal.num 0, FVal.num 1, FVal.num 2, FVal.num 3] (by decide)

/-- C4: a NaN produced by a non-Fst statistic is written silently into
the returned row. Here `pi_h` is NaN for every replicate while the Fst
values are clean, so the line-119 check passes and the call succeeds
with NaN in the output instead of failing the draw. -/
theorem nan_statistic_written_to_output :
    simStats 1 2 3 1 ["fst_mean", "pi_h"] true nanPiStats =
      .ok [[FVal.num 0, FVal.nan, FVal.num 1, FVal.num 2, FVal.num 3]] := by
  decide

/-! ### Rescale-mode round trip (C3) -/

/-- C3 counterexample: for the symmetric nonsingular relative matrix
`M3` (row sums 3, 2, 3) and `symbiont_Nm = 3`, the computed
`migration_constant` is `1`, so the rescaled output is `M3` itself; its
row-sum-weighted aggregate migration (mean row sum) is `8/3`, not the
input `symbiont_Nm = 3` — indeed its middle row sums to `2`. The
round-trip property fails as stated (and this is exact rational
arithmetic, so no floating-point tolerance rescues it). -/
theorem rescale_rowsum_roundtrip_fails :
    M3.IsSymm ∧ M3.det ≠ 0 ∧
    migrationConstant 3 3 M3 = 1 ∧
    rescaledMigration 3 3 M3 = M3 ∧
    (∑ i, ∑ j, rescaledMigration 3 3 M3 i j) / 3 ≠ 3 ∧
    ∑ j, rescaledMigration 3 3 M3 1 j ≠ 3 := by
  have hinv : M3⁻¹ = B3 := by
    apply Matrix.inv_eq_right_inv
    ext i j
    fin_cases i <;> fin_cases j <;>
      simp [M3, B3, Matrix.mul_apply, Fin.sum_univ_three, Matrix.one_apply] <;>
      norm_num
  have hc : migrationConstant 3 3 M3 = 1 := by
    rw [migrationConstant, hinv]
    simp only [Matrix.dotProduct, Matrix.mulVec, B3, Matrix.smul_apply]
    norm_num [Fin.sum_univ_three]
  have hresc : rescaledMigration 3 3 M3 = M3 := by
    rw [rescaledMigration, hc, one_smul]
  refine ⟨by decide, by norm_num [M3, Matrix.det_fin_three], hc, hresc, ?_, ?_⟩
  · rw [hresc]
    norm_num [M3, Fin.sum_univ_three]
  · rw [hresc]
    norm_num [M3, Fin.sum_univ_three]

/-- C3 amended: the scalar `migration_constant` is computed by the
stated inverse formula and the matrix is multiplied by it; the
round-trip property — every row of the output summing to
`symbiont_Nm`, so that any row-sum-weighted aggregate equals
`symbiont_Nm` — holds for symmetric nonsingular matrices with constant
row sums (as the default-mode uniform matrix has), but not for every
symmetric nonsingular matrix. -/
theorem rescale_roundtrip_constant_rowsum (n : ℕ) (Nm s : ℚ)
    (M : Matrix (Fin n) (Fin n) ℚ) (hn : 0 < n) (_hsymm : M.IsSymm)
    (hdet : IsUnit M.det) (hrow : ∀ i, ∑ j, M i j = s) (hs : s ≠ 0)
    (i : Fin n) :
    ∑ j, rescaledMigration n Nm M i j = Nm := by
  have hone : M.mulVec (fun _ => Nm / s) = fun _ => Nm := by
    funext k
    simp only [Matrix.mulVec, Matrix.dotProduct]
    rw [← Finset.sum_mul, hrow k, mul_comm, div_mul_cancel₀ Nm hs]
  have hinv : M⁻¹.mulVec (fun _ => Nm) = fun _ => Nm / s := by
    conv_lhs => rw [← hone]
    rw [Matrix.mulVec_mulVec, Matrix.nonsing_inv_mul M hdet, Matrix.one_mulVec]
  have hn' : (n : ℚ) ≠ 0 := Nat.cast_ne_zero.mpr hn.ne'
  have hc : migrationConstant n Nm M = Nm / s := by
    rw [migrationConstant, hinv]
    simp only [Matrix.dotProduct, one_mul, Finset.sum_const, Finset.card_univ,
      Fintype.card_fin, nsmul_eq_mul]
    exact mul_div_cancel_left₀ _ hn'
  rw [rescaledMigration, hc]
  simp only [Matrix.smul_apply, smul_eq_mul]
  rw [← Finset.mul_sum, hrow i, div_mul_cancel₀ Nm hs]

/-- C3 amended witness: the symmetric invertible matrix `M2` has
constant row sums `2`; rescaling it for `symbiont_Nm = 6` makes its
first row sum to `6`. -/
theorem rescale_roundtrip_constant_rowsum_witness :
    ∑ j, rescaledMigration 2 6 M2 0 j = 6 :=
  rescale_roundtrip_constant_rowsum 2 6 2 M2 (by norm_num) (by decide)
    (isUnit_iff_ne_zero.mpr (by norm_num [M2, Matrix.det_fin_two]))
    (by intro i; fin_cases i <;> norm_num [M2, Fin.sum_univ_two])
    (by norm_num) 0

end Txmn
